import Mathlib

/-!
Shallow embedding of the metadata transformation engine of `flac2mp3.py`.

The embedding covers the `Taginfo` facade (normalized key cache, consume
semantics, release-directory naming), the `Retagger` mapping pass (`retag`
with its rule groups: essentials, `__set_tracks`, `__set_discs`, the
residual numbering cleanup, the known-tag pass and the custom TXXX pass),
and `Recoder.__get_multidisc`.

Python strings are Lean `String`s; the ASCII case mappings, `str.strip`
and `int()` are embedded explicitly.  The FLAC tag container is the list
of raw `(key, value)` comment pairs, read-only throughout; the EasyID3
destination object is an ordered assignment log plus the class-level
registry of valid key names, which the engine only queries for
membership.  Raised exceptions are `Except` errors.
-/

namespace Flac2mp3

instance {ε α : Type} [DecidableEq ε] [DecidableEq α] : DecidableEq (Except ε α) := fun x y =>
  match x, y with
  | .ok a, .ok b =>
    if h : a = b then isTrue (by rw [h]) else isFalse (fun hc => h (by injection hc))
  | .error a, .error b =>
    if h : a = b then isTrue (by rw [h]) else isFalse (fun hc => h (by injection hc))
  | .ok _, .error _ => isFalse (fun hc => Except.noConfusion hc)
  | .error _, .ok _ => isFalse (fun hc => Except.noConfusion hc)

/-- ASCII whitespace recognized by Python `str.strip()`. -/
def pyIsSpace (c : Char) : Bool :=
  c = ' ' || c = '\t' || c = '\n' || c = '\r' || c = '\x0b' || c = '\x0c'

/-- Python `str.strip()`: drop leading and trailing whitespace. -/
def pyStrip (s : String) : String :=
  ⟨((s.data.dropWhile pyIsSpace).reverse.dropWhile pyIsSpace).reverse⟩

/-- Python `str.lower()` on one character (ASCII case mapping). -/
def pyLowerChar (c : Char) : Char :=
  if 65 ≤ c.toNat ∧ c.toNat ≤ 90 then Char.ofNat (c.toNat + 32) else c

/-- Python `str.upper()` on one character (ASCII case mapping). -/
def pyUpperChar (c : Char) : Char :=
  if 97 ≤ c.toNat ∧ c.toNat ≤ 122 then Char.ofNat (c.toNat - 32) else c

/-- Python `str.lower()`. -/
def pyLower (s : String) : String := ⟨s.data.map pyLowerChar⟩

/-- Python `str.upper()`. -/
def pyUpper (s : String) : String := ⟨s.data.map pyUpperChar⟩

/-- Decimal digit run accumulator for `int()`; `none` on empty or non-digit input. -/
def pyDigits (l : List Char) : Option Nat :=
  if l.isEmpty then none
  else l.foldl (fun acc c =>
    match acc with
    | none => none
    | some n => if 48 ≤ c.toNat ∧ c.toNat ≤ 57 then some (n * 10 + (c.toNat - 48)) else none)
    (some 0)

/-- Python `int(s)` on a decimal string: strip whitespace, optional sign, digits;
`none` models the `ValueError` raised on malformed input. -/
def pyInt (s : String) : Option Int :=
  match (pyStrip s).data with
  | '-' :: rest => (pyDigits rest).map (fun n => -(n : Int))
  | '+' :: rest => (pyDigits rest).map (fun n => (n : Int))
  | l => (pyDigits l).map (fun n => (n : Int))

/-- Python exceptions raised by the tag engine: `KeyError` (container lookup miss),
`ValueError` (`list.remove` miss, `int()` failure, `max` of empty) and bare
`Exception(message)`. -/
inductive PyError where
  | keyError : String → PyError
  | valueError : String → PyError
  | exception : String → PyError
deriving DecidableEq

/-- `self.flac[key]`: every value stored under `key`, case-insensitively
(mutagen `VCommentDict` lowercases both sides of the lookup). -/
def flacGet (tags : List (String × String)) (key : String) : List String :=
  (tags.filter (fun e => pyLower e.1 = pyLower key)).map Prod.snd

/-- `Taginfo`: the raw FLAC tag container (never mutated) plus the cached,
normalized active key list `flac_keys` (a Python list: duplicates possible). -/
structure Taginfo where
  flac : List (String × String)
  flac_keys : List String
deriving DecidableEq

/-- The key-cache comprehension of `Taginfo.__init__`: the upper-cased key of
every comment whose first stored value is nonempty after stripping. -/
def rawKeys (tags : List (String × String)) : List String :=
  (tags.filter
      (fun e => (pyStrip ((flacGet tags e.1).headD "")).length > 0)).map
      (fun e => pyUpper e.1)

/-- `Taginfo.__init__`: cache the normalized keys, then drop one occurrence of
`ALBUM ARTIST` when it duplicates `ALBUMARTIST` with identical value lists. -/
def Taginfo.init (tags : List (String × String)) : Taginfo :=
  ⟨tags,
    if "ALBUM ARTIST" ∈ rawKeys tags ∧ "ALBUMARTIST" ∈ rawKeys tags ∧
        flacGet tags "ALBUM ARTIST" = flacGet tags "ALBUMARTIST"
    then (rawKeys tags).erase "ALBUM ARTIST" else rawKeys tags⟩

/-- `Taginfo.consume`: read `self.flac[key]` (`KeyError` when the container has
no such key), then `self.flac_keys.remove(key)` (`ValueError` when the key is
not active), and return the first stored value. -/
def Taginfo.consume (t : Taginfo) (key : String) : Except PyError (String × Taginfo) :=
  let vs := flacGet t.flac key
  if vs = [] then .error (.keyError key)
  else if key ∈ t.flac_keys then
    .ok (vs.headD "", ⟨t.flac, t.flac_keys.erase key⟩)
  else .error (.valueError key)

/-- `Taginfo.has`: `key in self.flac_keys` and then `key is not None and key != ''`. -/
def Taginfo.has (t : Taginfo) (key : String) : Bool :=
  if key ∈ t.flac_keys then key ≠ "" else false

/-- `Taginfo.get_discnumber`: the integer value of `DISCNUMBER` (consuming it)
when active, else the default `1`; `int()` failure is a `ValueError`. -/
def Taginfo.get_discnumber (t : Taginfo) : Except PyError (Int × Taginfo) :=
  if t.has "DISCNUMBER" then
    match t.consume "DISCNUMBER" with
    | .error e => .error e
    | .ok (v, t') =>
      match pyInt v with
      | some n => .ok (n, t')
      | none => .error (.valueError v)
  else .ok (1, t)

/-- The first of `ARTIST`, `ALBUM`, `DATE` (in that order) not active in `t`. -/
def Taginfo.firstMissing (t : Taginfo) : Option String :=
  ["ARTIST", "ALBUM", "DATE"].find? (fun r => ! t.has r)

/-- `Taginfo.get_release_dir_name`: require ARTIST, ALBUM, DATE (raising on the
first absence), then consume all three and format the release directory name. -/
def Taginfo.get_release_dir_name (t : Taginfo) (mp3_mode : String) :
    Except PyError (String × Taginfo) :=
  match t.firstMissing with
  | some r => .error (.exception ("Not " ++ r ++ " information to craft dir name"))
  | none => do
    let (artist, t1) ← t.consume "ARTIST"
    let (album, t2) ← t1.consume "ALBUM"
    let (date, t3) ← t2.consume "DATE"
    .ok (artist ++ " - " ++ album ++ " (" ++ date ++ ") [" ++ mp3_mode ++ "]", t3)

/-- `Retagger` state: the inherited `Taginfo`, the EasyID3 destination
assignment log (in assignment order, keys lower-cased by `EasyID3.__setitem__`),
the EasyID3 class-level registry of valid key names (queried and extended by
membership only), and the externally supplied batch context. -/
structure Retagger where
  tag : Taginfo
  id3 : List (String × String)
  validKeys : List String
  count : Option Nat
  multidisc : Bool
deriving DecidableEq

/-- `Retagger.__init__` (the EasyID3 object starts with no assignments made). -/
def Retagger.init (tags : List (String × String)) (validKeys : List String)
    (count : Option Nat) (multidisc : Bool) : Retagger :=
  ⟨Taginfo.init tags, [], validKeys, count, multidisc⟩

/-- Truthiness of `self.count` (`None`/`False`/`0` are falsy). -/
def countTruthy : Option Nat → Bool
  | none => false
  | some n => n ≠ 0

/-- One EasyID3 destination assignment: `EasyID3.__setitem__` lower-cases the key. -/
def id3Assign (log : List (String × String)) (key v : String) : List (String × String) :=
  log ++ [(pyLower key, v)]

/-- `self.id3[key] = self.consume(key)`: consume a source field and assign it
to the identically named destination field. -/
def Retagger.consumeAssign (r : Retagger) (key : String) : Except PyError Retagger := do
  let (v, t') ← r.tag.consume key
  .ok { r with tag := t', id3 := id3Assign r.id3 key v }

/-- The fixed essential field list of `Retagger.retag`. -/
def essentialKeys : List String :=
  ["ARTIST", "TITLE", "ALBUM", "ALBUMARTIST", "PERFORMER", "COMPOSER", "DATE", "GENRE"]

/-- Loop body of rule group 1: copy one essential field if it is active. -/
def Retagger.essStep (r : Retagger) (key : String) : Except PyError Retagger :=
  if key ∈ r.tag.flac_keys then r.consumeAssign key else .ok r

/-- Rule group 1 of `Retagger.retag`: direct copy of the essential fields. -/
def Retagger.setEssentials (r : Retagger) : Except PyError Retagger :=
  essentialKeys.foldlM Retagger.essStep r

/-- `Retagger.__set_tracks`: assemble the composite `tracknumber` destination
field, preferring `TRACKTOTAL`, then `TOTALTRACKS`, then the item count; with
none of the three available nothing happens (no bare-position branch exists). -/
def Retagger.set_tracks (r : Retagger) : Except PyError Retagger :=
  if "TRACKNUMBER" ∈ r.tag.flac_keys then
    if "TRACKTOTAL" ∈ r.tag.flac_keys then do
      let (tn, t1) ← r.tag.consume "TRACKNUMBER"
      let (tt, t2) ← t1.consume "TRACKTOTAL"
      .ok { r with tag := t2, id3 := id3Assign r.id3 "tracknumber" (tn ++ "/" ++ tt) }
    else if "TOTALTRACKS" ∈ r.tag.flac_keys then do
      let (tn, t1) ← r.tag.consume "TRACKNUMBER"
      let (tt, t2) ← t1.consume "TOTALTRACKS"
      .ok { r with tag := t2, id3 := id3Assign r.id3 "tracknumber" (tn ++ "/" ++ tt) }
    else if countTruthy r.count then do
      let (tn, t1) ← r.tag.consume "TRACKNUMBER"
      let v := tn ++ "/" ++ Nat.repr (r.count.getD 0)
      .ok { r with tag := t1, id3 := id3Assign r.id3 "tracknumber" v }
    else .ok r
  else .ok r

/-- `if drop in self.flac_keys: self.flac_keys.remove(drop)`. -/
def removeIfPresent (keys : List String) (k : String) : List String :=
  if k ∈ keys then keys.erase k else keys

/-- The drop list of `Retagger.__set_discs`. -/
def discDropKeys : List String := ["DISCNUMBER", "TOTALDISCS", "DISCTOTAL"]

/-- `Retagger.__set_discs`: assign the composite `discnumber` destination field
only when the multi-disc flag is set, `DISCNUMBER` is active and one of the two
disc-total synonyms is active (preferring `DISCTOTAL`); afterwards, when the
flag is unset, remove one occurrence of each disc bookkeeping key. -/
def Retagger.set_discs (r : Retagger) : Except PyError Retagger :=
  (if r.multidisc ∧ "DISCNUMBER" ∈ r.tag.flac_keys ∧
        ("DISCTOTAL" ∈ r.tag.flac_keys ∨ "TOTALDISCS" ∈ r.tag.flac_keys) then
      if "DISCTOTAL" ∈ r.tag.flac_keys then do
        let (dn, t1) ← r.tag.consume "DISCNUMBER"
        let (dt, t2) ← t1.consume "DISCTOTAL"
        .ok { r with tag := t2, id3 := id3Assign r.id3 "discnumber" (dn ++ "/" ++ dt) }
      else if "TOTALDISCS" ∈ r.tag.flac_keys then do
        let (dn, t1) ← r.tag.consume "DISCNUMBER"
        let (dt, t2) ← t1.consume "TOTALDISCS"
        .ok { r with tag := t2, id3 := id3Assign r.id3 "discnumber" (dn ++ "/" ++ dt) }
      else .ok r
    else .ok r) >>= fun r1 =>
  if r1.multidisc then .ok r1
  else .ok { r1 with tag := ⟨r1.tag.flac, discDropKeys.foldl removeIfPresent r1.tag.flac_keys⟩ }

/-- The six numbering bookkeeping field names dropped by rule group 4. -/
def numberingKeys : List String :=
  ["DISCNUMBER", "TOTALDISCS", "DISCTOTAL", "TRACKNUMBER", "TOTALTRACKS", "TRACKTOTAL"]

/-- Loop body of rule group 4: consume one leftover numbering field if active. -/
def Retagger.dropStep (r : Retagger) (key : String) : Except PyError Retagger :=
  if key ∈ r.tag.flac_keys then do
    let (_, t') ← r.tag.consume key
    .ok { r with tag := t' }
  else .ok r

/-- Rule group 4 of `Retagger.retag`: consume and discard leftover numbering fields. -/
def Retagger.dropNumbering (r : Retagger) : Except PyError Retagger :=
  numberingKeys.foldlM Retagger.dropStep r

/-- Loop body of rule group 5: copy one field whose lower-cased name is registered. -/
def Retagger.knownStep (r : Retagger) (key : String) : Except PyError Retagger :=
  if pyLower key ∈ r.validKeys then r.consumeAssign key else .ok r

/-- Rule group 5 of `Retagger.retag`: over a snapshot of the remaining keys,
consume and assign every key whose lower-cased name is a registered valid key. -/
def Retagger.setKnown (r : Retagger) : Except PyError Retagger :=
  r.tag.flac_keys.foldlM Retagger.knownStep r

/-- `EasyID3.RegisterTXXXKey`: register the lower-cased key name; registering an
already registered name leaves the registry's key set unchanged. -/
def registerTXXX (reg : List String) (key : String) : List String :=
  if pyLower key ∈ reg then reg else reg ++ [pyLower key]

/-- Loop body of rule group 6: register one remaining field as a TXXX custom
key and assign it verbatim. -/
def Retagger.customStep (r : Retagger) (key : String) : Except PyError Retagger := do
  let reg := registerTXXX r.validKeys key
  let (v, t') ← r.tag.consume key
  .ok { r with validKeys := reg, tag := t', id3 := id3Assign r.id3 key v }

/-- Rule group 6 of `Retagger.retag`: over a snapshot of the remaining keys,
register each as a TXXX custom key and assign it verbatim. -/
def Retagger.setCustom (r : Retagger) : Except PyError Retagger :=
  r.tag.flac_keys.foldlM Retagger.customStep r

/-- `Retagger.retag`: the full mapping pass (the final `id3.save` is external I/O). -/
def Retagger.retag (r : Retagger) : Except PyError Retagger := do
  let r1 ← r.setEssentials
  let r2 ← r1.set_tracks
  let r3 ← r2.set_discs
  let r4 ← r3.dropNumbering
  let r5 ← r4.setKnown
  r5.setCustom

/-- The list comprehension of `Recoder.__get_multidisc`: each item's disc
number via a fresh `Taginfo`, left to right, propagating the first exception. -/
def discList : List (List (String × String)) → Except PyError (List Int)
  | [] => .ok []
  | tags :: rest => do
    let (d, _) ← (Taginfo.init tags).get_discnumber
    let ds ← discList rest
    .ok (d :: ds)

/-- `Recoder.__get_multidisc`: the maximum of the per-item disc numbers exceeds 1
(`max` of an empty batch raises `ValueError`). -/
def get_multidisc (batch : List (List (String × String))) : Except PyError Bool := do
  let ds ← discList batch
  match ds with
  | [] => .error (.valueError "max() arg is an empty sequence")
  | d :: rest => .ok (decide (rest.foldl max d > 1))

/-- Every active key has at least one stored value, so `consume` on an active
key cannot raise `KeyError`; established by `Taginfo.init` and preserved by
every operation of the engine. -/
def KeysValid (t : Taginfo) : Prop := ∀ k ∈ t.flac_keys, flacGet t.flac k ≠ []

theorem char_ofNat_toNat (n : Nat) (h : n < 55296) : (Char.ofNat n).toNat = n := by
  have hv : n.isValidChar := Or.inl h
  simp only [Char.ofNat, hv, dif_pos, Char.ofNatAux]
  rfl

theorem char_toNat_inj {c d : Char} (h : c.toNat = d.toNat) : c = d :=
  Char.eq_of_val_eq (UInt32.ext h)

theorem pyLowerChar_toNat (c : Char) :
    (pyLowerChar c).toNat =
      if 65 ≤ c.toNat ∧ c.toNat ≤ 90 then c.toNat + 32 else c.toNat := by
  unfold pyLowerChar
  split
  · rename_i h
    rw [char_ofNat_toNat _ (by omega)]
  · rfl

theorem pyUpperChar_toNat (c : Char) :
    (pyUpperChar c).toNat =
      if 97 ≤ c.toNat ∧ c.toNat ≤ 122 then c.toNat - 32 else c.toNat := by
  unfold pyUpperChar
  split
  · rename_i h
    rw [char_ofNat_toNat _ (by omega)]
  · rfl

/-- The ASCII upper-case map never produces a lower-case ASCII letter. -/
theorem pyUpperChar_not_lower (c : Char) :
    ¬(97 ≤ (pyUpperChar c).toNat ∧ (pyUpperChar c).toNat ≤ 122) := by
  rw [pyUpperChar_toNat]
  split <;> omega

theorem pyUpperChar_fix {c : Char} (h : ¬(97 ≤ c.toNat ∧ c.toNat ≤ 122)) :
    pyUpperChar c = c := by
  unfold pyUpperChar
  rw [if_neg h]

theorem not_lower_of_upperChar_fix {c : Char} (h : pyUpperChar c = c) :
    ¬(97 ≤ c.toNat ∧ c.toNat ≤ 122) := by
  intro hc
  have := pyUpperChar_not_lower c
  rw [h] at this
  exact this hc

/-- The ASCII lower-case map is injective on characters that are not
lower-case ASCII letters. -/
theorem pyLowerChar_inj {c d : Char}
    (hc : ¬(97 ≤ c.toNat ∧ c.toNat ≤ 122)) (hd : ¬(97 ≤ d.toNat ∧ d.toNat ≤ 122))
    (h : pyLowerChar c = pyLowerChar d) : c = d := by
  apply char_toNat_inj
  have h' := congrArg Char.toNat h
  rw [pyLowerChar_toNat, pyLowerChar_toNat] at h'
  revert h'
  split <;> split <;> omega

theorem pyLowerChar_upperChar (c : Char) :
    pyLowerChar (pyUpperChar c) = pyLowerChar c := by
  apply char_toNat_inj
  rw [pyLowerChar_toNat, pyLowerChar_toNat, pyUpperChar_toNat]
  split_ifs <;> omega

theorem string_data_inj {a b : String} (h : a.data = b.data) : a = b := by
  cases a
  cases b
  exact congrArg String.mk h

theorem pyLower_pyUpper (s : String) : pyLower (pyUpper s) = pyLower s := by
  apply string_data_inj
  show (s.data.map pyUpperChar).map pyLowerChar = s.data.map pyLowerChar
  rw [List.map_map]
  exact List.map_congr_left (fun c _ => pyLowerChar_upperChar c)

theorem map_eq_self_mem {α : Type} (f : α → α) :
    ∀ (l : List α), l.map f = l → ∀ c ∈ l, f c = c := by
  intro l
  induction l with
  | nil => intro _ c hc; cases hc
  | cons a t ih =>
    intro h c hc
    rw [List.map_cons] at h
    have h1 := List.cons.inj h
    cases hc with
    | head => exact h1.1
    | tail _ hm => exact ih h1.2 c hm

theorem map_lowerChar_inj :
    ∀ (l1 l2 : List Char), (∀ c ∈ l1, pyUpperChar c = c) → (∀ c ∈ l2, pyUpperChar c = c) →
      l1.map pyLowerChar = l2.map pyLowerChar → l1 = l2 := by
  intro l1
  induction l1 with
  | nil =>
    intro l2 _ _ h
    cases l2 with
    | nil => rfl
    | cons b t2 => simp at h
  | cons a t1 ih =>
    intro l2 h1 h2 h
    cases l2 with
    | nil => simp at h
    | cons b t2 =>
      rw [List.map_cons, List.map_cons] at h
      have h' := List.cons.inj h
      have ha : pyUpperChar a = a := h1 a (List.mem_cons_self a t1)
      have hb : pyUpperChar b = b := h2 b (List.mem_cons_self b t2)
      have hab : a = b :=
        pyLowerChar_inj (not_lower_of_upperChar_fix ha) (not_lower_of_upperChar_fix hb) h'.1
      rw [hab, ih t2 (fun c hc => h1 c (List.mem_cons_of_mem a hc))
        (fun c hc => h2 c (List.mem_cons_of_mem b hc)) h'.2]

/-- `pyLower` is injective on strings fixed by `pyUpper` (such as the
normalized keys cached by `Taginfo.init`). -/
theorem pyLower_inj_on_upper {a b : String}
    (ha : pyUpper a = a) (hb : pyUpper b = b) (h : pyLower a = pyLower b) : a = b := by
  apply string_data_inj
  have ha' : a.data.map pyUpperChar = a.data := congrArg String.data ha
  have hb' : b.data.map pyUpperChar = b.data := congrArg String.data hb
  exact map_lowerChar_inj a.data b.data
    (map_eq_self_mem _ _ ha') (map_eq_self_mem _ _ hb')
    (congrArg String.data h)

theorem pyUpper_idem (s : String) : pyUpper (pyUpper s) = pyUpper s := by
  apply string_data_inj
  show (s.data.map pyUpperChar).map pyUpperChar = s.data.map pyUpperChar
  rw [List.map_map]
  apply List.map_congr_left
  intro c _
  exact pyUpperChar_fix (pyUpperChar_not_lower c)

instance (t : Taginfo) : Decidable (KeysValid t) :=
  inferInstanceAs (Decidable (∀ k ∈ t.flac_keys, flacGet t.flac k ≠ []))

theorem self_mem_flacGet {tags : List (String × String)} {e : String × String}
    (he : e ∈ tags) : e.2 ∈ flacGet tags e.1 := by
  unfold flacGet
  refine List.mem_map.mpr ⟨e, List.mem_filter.mpr ⟨he, by simp⟩, rfl⟩

/-- Case-insensitive lookup is unchanged by upper-casing the key. -/
theorem flacGet_pyUpper (tags : List (String × String)) (k : String) :
    flacGet tags (pyUpper k) = flacGet tags k := by
  unfold flacGet
  congr 1
  apply List.filter_congr
  intro e _
  simp [pyLower_pyUpper]

theorem init_flac (tags : List (String × String)) : (Taginfo.init tags).flac = tags := by
  unfold Taginfo.init
  split <;> rfl

theorem init_keys_sub (tags : List (String × String)) :
    (Taginfo.init tags).flac_keys ⊆ rawKeys tags := by
  unfold Taginfo.init
  split
  · exact List.erase_subset _ _
  · exact fun _ h => h

theorem mem_rawKeys {tags : List (String × String)} {k : String}
    (hk : k ∈ rawKeys tags) : ∃ e, e ∈ tags ∧ k = pyUpper e.1 := by
  unfold rawKeys at hk
  rcases List.mem_map.mp hk with ⟨e, hef, rfl⟩
  exact ⟨e, (List.mem_filter.mp hef).1, rfl⟩

theorem rawKeys_upper {tags : List (String × String)} {k : String}
    (hk : k ∈ rawKeys tags) : pyUpper k = k := by
  rcases mem_rawKeys hk with ⟨e, _, rfl⟩
  exact pyUpper_idem e.1

theorem init_keys_upper {tags : List (String × String)} {k : String}
    (hk : k ∈ (Taginfo.init tags).flac_keys) : pyUpper k = k :=
  rawKeys_upper (init_keys_sub tags hk)

theorem keysValid_init (tags : List (String × String)) : KeysValid (Taginfo.init tags) := by
  intro k hk
  rcases mem_rawKeys (init_keys_sub tags hk) with ⟨e, he, rfl⟩
  rw [init_flac, flacGet_pyUpper]
  intro hemp
  have hm := self_mem_flacGet he
  rw [hemp] at hm
  cases hm

theorem keysValid_sub {t : Taginfo} (hv : KeysValid t) {ks : List String}
    (hs : ∀ k ∈ ks, k ∈ t.flac_keys) : KeysValid ⟨t.flac, ks⟩ :=
  fun k hk => hv k (hs k hk)

theorem keysValid_erase {t : Taginfo} (hv : KeysValid t) (key : String) :
    KeysValid ⟨t.flac, t.flac_keys.erase key⟩ :=
  keysValid_sub hv (fun _ hk => List.mem_of_mem_erase hk)

/-- `consume` on an active key succeeds with the first stored value and
removes one occurrence of the key. -/
theorem consume_ok {t : Taginfo} {key : String} (hv : KeysValid t)
    (hk : key ∈ t.flac_keys) :
    t.consume key = .ok ((flacGet t.flac key).headD "", ⟨t.flac, t.flac_keys.erase key⟩) := by
  simp only [Taginfo.consume]
  rw [if_neg (hv key hk), if_pos hk]

/-- `consume` on a non-active key raises (`KeyError` or `ValueError`). -/
theorem consume_err {t : Taginfo} {key : String} (hk : key ∉ t.flac_keys) :
    ∃ e, t.consume key = .error e := by
  simp only [Taginfo.consume]
  by_cases h : flacGet t.flac key = []
  · rw [if_pos h]
    exact ⟨_, rfl⟩
  · rw [if_neg h, if_neg hk]
    exact ⟨_, rfl⟩

theorem mem_of_has {t : Taginfo} {key : String} (h : t.has key = true) :
    key ∈ t.flac_keys := by
  unfold Taginfo.has at h
  by_cases hm : key ∈ t.flac_keys
  · exact hm
  · rw [if_neg hm] at h
    cases h

theorem not_mem_of_has_false {t : Taginfo} {key : String} (h : t.has key = false)
    (hne : key ≠ "") : key ∉ t.flac_keys := by
  intro hm
  unfold Taginfo.has at h
  rw [if_pos hm] at h
  simp [hne] at h

/-- C9: `consume(name)` returns the first value associated with `name` and
removes `name` from the active key list when `name` is active, and raises
exactly when `name` is not currently active (never present or already
consumed); it never silently returns a value for a non-active field. -/
theorem claim9_consume_contract (t : Taginfo) (key : String) (hv : KeysValid t) :
    (key ∈ t.flac_keys →
      t.consume key =
        .ok ((flacGet t.flac key).headD "", ⟨t.flac, t.flac_keys.erase key⟩)) ∧
    (key ∉ t.flac_keys → ∃ e, t.consume key = .error e) :=
  ⟨fun hk => consume_ok hv hk, fun hk => consume_err hk⟩

/-- Witness for C9: consuming the active field `ARTIST` of `{ARTIST: "A"}`
yields `"A"` and deactivates the key; consuming it a second time, and
consuming the never-present `TITLE`, both raise. -/
theorem claim9_witness :
    ((Taginfo.init [("ARTIST", "A")]).consume "ARTIST" =
      .ok ("A", ⟨[("ARTIST", "A")], []⟩)) ∧
    (∃ e, (Taginfo.mk [("ARTIST", "A")] []).consume "ARTIST" = .error e) ∧
    (∃ e, (Taginfo.init [("ARTIST", "A")]).consume "TITLE" = .error e) :=
  ⟨((claim9_consume_contract (Taginfo.init [("ARTIST", "A")]) "ARTIST"
      (by decide)).1 (by decide)).trans (by decide),
   (claim9_consume_contract (Taginfo.mk [("ARTIST", "A")] []) "ARTIST"
      (by decide)).2 (by decide),
   (claim9_consume_contract (Taginfo.init [("ARTIST", "A")]) "TITLE"
      (by decide)).2 (by decide)⟩

/-- C4: `get_release_dir_name` checks ARTIST, ALBUM, DATE in that fixed order,
raises an exception naming the first missing field (short-circuiting), and on
success returns the label built from the first values of the three fields and
the mode tag. -/
theorem claim4_release_dir_name (t : Taginfo) (mode : String) (hv : KeysValid t) :
    (t.has "ARTIST" = false →
      t.get_release_dir_name mode =
        .error (.exception "Not ARTIST information to craft dir name")) ∧
    (t.has "ARTIST" = true → t.has "ALBUM" = false →
      t.get_release_dir_name mode =
        .error (.exception "Not ALBUM information to craft dir name")) ∧
    (t.has "ARTIST" = true → t.has "ALBUM" = true → t.has "DATE" = false →
      t.get_release_dir_name mode =
        .error (.exception "Not DATE information to craft dir name")) ∧
    (t.has "ARTIST" = true → t.has "ALBUM" = true → t.has "DATE" = true →
      t.get_release_dir_name mode =
        .ok ((flacGet t.flac "ARTIST").headD "" ++ " - " ++
             (flacGet t.flac "ALBUM").headD "" ++ " (" ++
             (flacGet t.flac "DATE").headD "" ++ ") [" ++ mode ++ "]",
          ⟨t.flac, ((t.flac_keys.erase "ARTIST").erase "ALBUM").erase "DATE"⟩)) := by
  refine ⟨fun h1 => ?_, fun h1 h2 => ?_, fun h1 h2 h3 => ?_, fun h1 h2 h3 => ?_⟩
  · have hfm : t.firstMissing = some "ARTIST" := by
      simp [Taginfo.firstMissing, List.find?, h1]
    simp [Taginfo.get_release_dir_name, hfm]
  · have hfm : t.firstMissing = some "ALBUM" := by
      simp [Taginfo.firstMissing, List.find?, h1, h2]
    simp [Taginfo.get_release_dir_name, hfm]
  · have hfm : t.firstMissing = some "DATE" := by
      simp [Taginfo.firstMissing, List.find?, h1, h2, h3]
    simp [Taginfo.get_release_dir_name, hfm]
  · have hfm : t.firstMissing = none := by
      simp [Taginfo.firstMissing, List.find?, h1, h2, h3]
    have m1 : "ARTIST" ∈ t.flac_keys := mem_of_has h1
    have m2 : "ALBUM" ∈ (⟨t.flac, t.flac_keys.erase "ARTIST"⟩ : Taginfo).flac_keys :=
      (List.mem_erase_of_ne (by decide)).mpr (mem_of_has h2)
    have m3 : "DATE" ∈
        (⟨t.flac, (t.flac_keys.erase "ARTIST").erase "ALBUM"⟩ : Taginfo).flac_keys :=
      (List.mem_erase_of_ne (by decide)).mpr
        ((List.mem_erase_of_ne (by decide)).mpr (mem_of_has h3))
    simp only [Taginfo.get_release_dir_name, hfm]
    rw [consume_ok hv m1]
    simp only [bind, Except.bind]
    rw [consume_ok (keysValid_erase hv _) m2]
    simp only [bind, Except.bind]
    rw [consume_ok (keysValid_erase (keysValid_erase hv _) _) m3]

/-- Witness for C4: the Pink Floyd example yields
`Pink Floyd - Animals (1977) [V0]`, and with ALBUM missing the first absent
field is the one named in the error. -/
theorem claim4_witness :
    Taginfo.get_release_dir_name
        (Taginfo.init [("ARTIST", "Pink Floyd"), ("ALBUM", "Animals"), ("DATE", "1977")]) "V0" =
      .ok ("Pink Floyd - Animals (1977) [V0]",
        ⟨[("ARTIST", "Pink Floyd"), ("ALBUM", "Animals"), ("DATE", "1977")], []⟩) ∧
    Taginfo.get_release_dir_name
        (Taginfo.init [("ARTIST", "Pink Floyd"), ("DATE", "1977")]) "V0" =
      .error (.exception "Not ALBUM information to craft dir name") := by
  constructor
  · have h := (claim4_release_dir_name
      (Taginfo.init [("ARTIST", "Pink Floyd"), ("ALBUM", "Animals"), ("DATE", "1977")])
      "V0" (by decide)).2.2.2 (by decide) (by decide) (by decide)
    exact h.trans (by decide)
  · exact (claim4_release_dir_name
      (Taginfo.init [("ARTIST", "Pink Floyd"), ("DATE", "1977")])
      "V0" (by decide)).2.1 (by decide) (by decide)

/-- Counterexample for C7: with two `ALBUM ARTIST` comments and two matching
`ALBUMARTIST` comments (identical value lists), construction removes only one
occurrence of `ALBUM ARTIST`, so both field names are still active — the
active field set does not contain exactly one of the two. -/
theorem claim7_counterexample :
    flacGet [("ALBUM ARTIST", "X"), ("ALBUM ARTIST", "Y"),
             ("ALBUMARTIST", "X"), ("ALBUMARTIST", "Y")] "ALBUM ARTIST" =
      flacGet [("ALBUM ARTIST", "X"), ("ALBUM ARTIST", "Y"),
               ("ALBUMARTIST", "X"), ("ALBUMARTIST", "Y")] "ALBUMARTIST" ∧
    "ALBUM ARTIST" ∈ (Taginfo.init [("ALBUM ARTIST", "X"), ("ALBUM ARTIST", "Y"),
             ("ALBUMARTIST", "X"), ("ALBUMARTIST", "Y")]).flac_keys ∧
    "ALBUMARTIST" ∈ (Taginfo.init [("ALBUM ARTIST", "X"), ("ALBUM ARTIST", "Y"),
             ("ALBUMARTIST", "X"), ("ALBUMARTIST", "Y")]).flac_keys := by
  decide

/-- C7 as amended: at construction, if both names are cached with identical
value lists, one occurrence of `ALBUM ARTIST` is removed; hence when
`ALBUM ARTIST` is cached exactly once, the active set retains `ALBUMARTIST`
and not `ALBUM ARTIST` — exactly one of the two — before mapping begins. -/
theorem claim7_amended_synonym_collapse (tags : List (String × String))
    (h1 : List.count "ALBUM ARTIST" (rawKeys tags) = 1)
    (h2 : "ALBUMARTIST" ∈ rawKeys tags)
    (h3 : flacGet tags "ALBUM ARTIST" = flacGet tags "ALBUMARTIST") :
    "ALBUM ARTIST" ∉ (Taginfo.init tags).flac_keys ∧
    "ALBUMARTIST" ∈ (Taginfo.init tags).flac_keys := by
  have hm : "ALBUM ARTIST" ∈ rawKeys tags := List.count_pos_iff.mp (by omega)
  unfold Taginfo.init
  rw [if_pos ⟨hm, h2, h3⟩]
  constructor
  · apply List.count_eq_zero.mp
    rw [List.count_erase_self]
    omega
  · exact (List.mem_erase_of_ne (by decide)).mpr h2

/-- Witness for C7 (amended): with one `ALBUM ARTIST` and one `ALBUMARTIST`
comment holding the same value, only `ALBUMARTIST` is active after
construction. -/
theorem claim7_witness :
    "ALBUM ARTIST" ∉ (Taginfo.init [("ALBUM ARTIST", "X"), ("ALBUMARTIST", "X")]).flac_keys ∧
    "ALBUMARTIST" ∈ (Taginfo.init [("ALBUM ARTIST", "X"), ("ALBUMARTIST", "X")]).flac_keys :=
  claim7_amended_synonym_collapse [("ALBUM ARTIST", "X"), ("ALBUMARTIST", "X")]
    (by decide) (by decide) (by decide)

theorem get_discnumber_of_has {t : Taginfo} (hv : KeysValid t)
    (hd : t.has "DISCNUMBER" = true) {n : Int}
    (hp : pyInt ((flacGet t.flac "DISCNUMBER").headD "") = some n) :
    t.get_discnumber = .ok (n, ⟨t.flac, t.flac_keys.erase "DISCNUMBER"⟩) := by
  unfold Taginfo.get_discnumber
  rw [if_pos hd, consume_ok hv (mem_of_has hd)]
  have hp' : pyInt ((flacGet t.flac "DISCNUMBER").head?.getD "") = some n := by
    rw [← List.headD_eq_head?_getD]
    exact hp
  simp [hp']

theorem get_discnumber_of_not_has {t : Taginfo} (hd : t.has "DISCNUMBER" = false) :
    t.get_discnumber = .ok (1, t) := by
  unfold Taginfo.get_discnumber
  rw [if_neg]
  simp [hd]

theorem disc_item (tags : List (String × String))
    (hp : (Taginfo.init tags).has "DISCNUMBER" = true →
      ∃ n : Int, pyInt ((flacGet tags "DISCNUMBER").headD "") = some n) :
    ∃ d t', (Taginfo.init tags).get_discnumber = .ok (d, t') ∧
      (1 < d ↔ ((Taginfo.init tags).has "DISCNUMBER" = true ∧
        ∃ n : Int, pyInt ((flacGet tags "DISCNUMBER").headD "") = some n ∧ 1 < n)) := by
  cases hd : (Taginfo.init tags).has "DISCNUMBER" with
  | true =>
    obtain ⟨n, hn⟩ := hp hd
    have hn' : pyInt ((flacGet (Taginfo.init tags).flac "DISCNUMBER").headD "") = some n := by
      rw [init_flac]
      exact hn
    refine ⟨n, _, get_discnumber_of_has (keysValid_init tags) hd hn', ?_⟩
    constructor
    · exact fun h1 => ⟨rfl, n, hn, h1⟩
    · rintro ⟨-, m, hm, h1⟩
      rw [hn] at hm
      injection hm with hm
      omega
  | false =>
    refine ⟨1, _, get_discnumber_of_not_has hd, ?_⟩
    constructor
    · intro h1
      exact absurd h1 (by omega)
    · rintro ⟨hdt, -⟩
      exact Bool.noConfusion hdt

theorem discList_spec (batch : List (List (String × String)))
    (hp : ∀ tags ∈ batch, (Taginfo.init tags).has "DISCNUMBER" = true →
      ∃ n : Int, pyInt ((flacGet tags "DISCNUMBER").headD "") = some n) :
    ∃ ds : List Int, discList batch = .ok ds ∧ (ds = [] ↔ batch = []) ∧
      ((∃ x ∈ ds, 1 < x) ↔
        (∃ tags ∈ batch, (Taginfo.init tags).has "DISCNUMBER" = true ∧
          ∃ n : Int, pyInt ((flacGet tags "DISCNUMBER").headD "") = some n ∧ 1 < n)) := by
  induction batch with
  | nil => exact ⟨[], rfl, by simp, by simp⟩
  | cons tags rest ih =>
    obtain ⟨d, t', hget, hiff⟩ := disc_item tags (hp tags (List.mem_cons_self tags rest))
    obtain ⟨ds, hds, -, hex⟩ := ih (fun x hx => hp x (List.mem_cons_of_mem _ hx))
    refine ⟨d :: ds, ?_, by simp, ?_⟩
    · show discList (tags :: rest) = .ok (d :: ds)
      simp only [discList]
      rw [hget]
      simp only [bind, Except.bind]
      rw [hds]
    · rw [List.exists_mem_cons_iff, List.exists_mem_cons_iff, hiff, hex]

theorem one_lt_max (a b : Int) : 1 < max a b ↔ 1 < a ∨ 1 < b := by
  rcases le_total a b with h | h
  · rw [max_eq_right h]
    constructor
    · exact fun h1 => Or.inr h1
    · rintro (h1 | h1) <;> omega
  · rw [max_eq_left h]
    constructor
    · exact fun h1 => Or.inl h1
    · rintro (h1 | h1) <;> omega

theorem one_lt_foldl_max :
    ∀ (l : List Int) (d : Int), 1 < l.foldl max d ↔ 1 < d ∨ ∃ x ∈ l, 1 < x := by
  intro l
  induction l with
  | nil => intro d; simp
  | cons a t ih =>
    intro d
    rw [List.foldl_cons, ih, one_lt_max, List.exists_mem_cons_iff]
    tauto

/-- C10: `get_discnumber` returns the integer value of an active `DISCNUMBER`
(consuming it) when it parses, and the default 1 when the field is not active;
consequently the batch multi-disc flag is true exactly when some item has an
active `DISCNUMBER` whose integer value exceeds 1, and a nonempty batch with no
`DISCNUMBER` at all is single-disc. -/
theorem claim10_multidisc :
    (∀ (t : Taginfo), KeysValid t → t.has "DISCNUMBER" = true →
      ∀ n : Int, pyInt ((flacGet t.flac "DISCNUMBER").headD "") = some n →
      t.get_discnumber = .ok (n, ⟨t.flac, t.flac_keys.erase "DISCNUMBER"⟩)) ∧
    (∀ (t : Taginfo), t.has "DISCNUMBER" = false → t.get_discnumber = .ok (1, t)) ∧
    (∀ (batch : List (List (String × String))), batch ≠ [] →
      (∀ tags ∈ batch, (Taginfo.init tags).has "DISCNUMBER" = true →
        ∃ n : Int, pyInt ((flacGet tags "DISCNUMBER").headD "") = some n) →
      ∃ b, get_multidisc batch = .ok b ∧
        (b = true ↔
          (∃ tags ∈ batch, (Taginfo.init tags).has "DISCNUMBER" = true ∧
            ∃ n : Int, pyInt ((flacGet tags "DISCNUMBER").headD "") = some n ∧ 1 < n))) := by
  refine ⟨fun t hv hd n hp => get_discnumber_of_has hv hd hp,
          fun t hd => get_discnumber_of_not_has hd,
          fun batch hne hp => ?_⟩
  obtain ⟨ds, hds, hnil, hex⟩ := discList_spec batch hp
  cases ds with
  | nil => exact absurd (hnil.mp rfl) hne
  | cons d rest =>
    refine ⟨decide (1 < rest.foldl max d), ?_, ?_⟩
    · simp only [get_multidisc]
      rw [hds]
      simp only [bind, Except.bind]
    · rw [decide_eq_true_eq, one_lt_foldl_max, ← List.exists_mem_cons_iff, hex]

/-- Witness for C10: a batch whose first item carries `DISCNUMBER: "2"` is
multi-disc; a nonempty batch with no `DISCNUMBER` field is single-disc. -/
theorem claim10_witness :
    get_multidisc [[("DISCNUMBER", "2")], [("ARTIST", "x")]] = .ok true ∧
    get_multidisc [[("ARTIST", "x")]] = .ok false := by
  constructor
  · obtain ⟨b, heq, hiff⟩ := claim10_multidisc.2.2 [[("DISCNUMBER", "2")], [("ARTIST", "x")]]
      (by decide)
      (by
        intro tags ht hh
        rcases List.mem_cons.mp ht with rfl | ht2
        · exact ⟨2, by decide⟩
        · rcases List.mem_cons.mp ht2 with rfl | ht3
          · exact absurd hh (by decide)
          · cases ht3)
    have hb : b = true := hiff.mpr ⟨[("DISCNUMBER", "2")], by decide, by decide, 2, by decide, by decide⟩
    rw [hb] at heq
    exact heq
  · obtain ⟨b, heq, hiff⟩ := claim10_multidisc.2.2 [[("ARTIST", "x")]]
      (by decide)
      (by
        intro tags ht hh
        rcases List.mem_cons.mp ht with rfl | ht2
        · exact absurd hh (by decide)
        · cases ht2)
    have hb : b = false := by
      cases hbv : b with
      | false => rfl
      | true =>
        obtain ⟨tags, ht, hdt, -⟩ := hiff.mp hbv
        rcases List.mem_cons.mp ht with rfl | ht2
        · cases hdt
        · cases ht2
    rw [hb] at heq
    exact heq

theorem except_bind_ok {α β : Type} {x : Except PyError α} {f : α → Except PyError β} {b : β}
    (h : (x >>= f) = .ok b) : ∃ a, x = .ok a ∧ f a = .ok b := by
  cases x with
  | error e => simp [bind, Except.bind] at h
  | ok a => exact ⟨a, rfl, by simpa [bind, Except.bind] using h⟩

theorem consumeAssign_ok {r : Retagger} {key : String} (hv : KeysValid r.tag)
    (hk : key ∈ r.tag.flac_keys) :
    r.consumeAssign key = .ok { r with
      tag := ⟨r.tag.flac, r.tag.flac_keys.erase key⟩,
      id3 := id3Assign r.id3 key ((flacGet r.tag.flac key).headD "") } := by
  unfold Retagger.consumeAssign
  rw [consume_ok hv hk]
  rfl

theorem foldlM_inv {β : Type} {P : Retagger → Prop} {f : Retagger → β → Except PyError Retagger}
    (hf : ∀ r k, P r → ∃ r', f r k = .ok r' ∧ P r') :
    ∀ (l : List β) (r : Retagger), P r → ∃ r', List.foldlM f r l = .ok r' ∧ P r' := by
  intro l
  induction l with
  | nil => intro r hr; exact ⟨r, rfl, hr⟩
  | cons a t ih =>
    intro r hr
    obtain ⟨r1, hf1, hp1⟩ := hf r a hr
    obtain ⟨r2, hf2, hp2⟩ := ih r1 hp1
    refine ⟨r2, ?_, hp2⟩
    rw [List.foldlM_cons, hf1]
    simpa [bind, Except.bind] using hf2

theorem essStep_ok (r : Retagger) (key : String) (hv : KeysValid r.tag) :
    ∃ r', r.essStep key = .ok r' ∧ KeysValid r'.tag := by
  unfold Retagger.essStep
  by_cases hk : key ∈ r.tag.flac_keys
  · rw [if_pos hk, consumeAssign_ok hv hk]
    exact ⟨_, rfl, keysValid_erase hv key⟩
  · rw [if_neg hk]
    exact ⟨r, rfl, hv⟩

theorem setEssentials_ok (r : Retagger) (hv : KeysValid r.tag) :
    ∃ r', r.setEssentials = .ok r' ∧ KeysValid r'.tag :=
  foldlM_inv (fun r k hr => essStep_ok r k hr) essentialKeys r hv

theorem dropStep_ok (r : Retagger) (key : String) (hv : KeysValid r.tag) :
    ∃ r', r.dropStep key = .ok r' ∧ KeysValid r'.tag := by
  unfold Retagger.dropStep
  by_cases hk : key ∈ r.tag.flac_keys
  · rw [if_pos hk, consume_ok hv hk]
    exact ⟨_, rfl, keysValid_erase hv key⟩
  · rw [if_neg hk]
    exact ⟨r, rfl, hv⟩

theorem dropNumbering_ok (r : Retagger) (hv : KeysValid r.tag) :
    ∃ r', r.dropNumbering = .ok r' ∧ KeysValid r'.tag :=
  foldlM_inv (fun r k hr => dropStep_ok r k hr) numberingKeys r hv

theorem set_tracks_eq_tt (r : Retagger) (hv : KeysValid r.tag)
    (h1 : "TRACKNUMBER" ∈ r.tag.flac_keys) (h2 : "TRACKTOTAL" ∈ r.tag.flac_keys) :
    r.set_tracks = .ok { r with
      tag := ⟨r.tag.flac, (r.tag.flac_keys.erase "TRACKNUMBER").erase "TRACKTOTAL"⟩,
      id3 := id3Assign r.id3 "tracknumber"
        ((flacGet r.tag.flac "TRACKNUMBER").headD "" ++ "/" ++
         (flacGet r.tag.flac "TRACKTOTAL").headD "") } := by
  unfold Retagger.set_tracks
  rw [if_pos h1, if_pos h2, consume_ok hv h1]
  simp only [bind, Except.bind]
  rw [consume_ok (keysValid_erase hv _) ((List.mem_erase_of_ne (by decide)).mpr h2)]

theorem set_tracks_eq_tot (r : Retagger) (hv : KeysValid r.tag)
    (h1 : "TRACKNUMBER" ∈ r.tag.flac_keys) (h2 : "TRACKTOTAL" ∉ r.tag.flac_keys)
    (h3 : "TOTALTRACKS" ∈ r.tag.flac_keys) :
    r.set_tracks = .ok { r with
      tag := ⟨r.tag.flac, (r.tag.flac_keys.erase "TRACKNUMBER").erase "TOTALTRACKS"⟩,
      id3 := id3Assign r.id3 "tracknumber"
        ((flacGet r.tag.flac "TRACKNUMBER").headD "" ++ "/" ++
         (flacGet r.tag.flac "TOTALTRACKS").headD "") } := by
  unfold Retagger.set_tracks
  rw [if_pos h1, if_neg h2, if_pos h3, consume_ok hv h1]
  simp only [bind, Except.bind]
  rw [consume_ok (keysValid_erase hv _) ((List.mem_erase_of_ne (by decide)).mpr h3)]

theorem set_tracks_eq_count (r : Retagger) (hv : KeysValid r.tag)
    (h1 : "TRACKNUMBER" ∈ r.tag.flac_keys) (h2 : "TRACKTOTAL" ∉ r.tag.flac_keys)
    (h3 : "TOTALTRACKS" ∉ r.tag.flac_keys) {n : Nat} (h4 : r.count = some n) (h5 : n ≠ 0) :
    r.set_tracks = .ok { r with
      tag := ⟨r.tag.flac, r.tag.flac_keys.erase "TRACKNUMBER"⟩,
      id3 := id3Assign r.id3 "tracknumber"
        ((flacGet r.tag.flac "TRACKNUMBER").headD "" ++ "/" ++ Nat.repr n) } := by
  unfold Retagger.set_tracks
  have hct : countTruthy r.count = true := by
    rw [h4]
    simp [countTruthy, h5]
  rw [if_pos h1, if_neg h2, if_neg h3, if_pos hct, consume_ok hv h1, h4]
  rfl

theorem set_tracks_eq_none (r : Retagger)
    (h1 : "TRACKTOTAL" ∉ r.tag.flac_keys) (h2 : "TOTALTRACKS" ∉ r.tag.flac_keys)
    (h3 : countTruthy r.count = false) :
    r.set_tracks = .ok r := by
  unfold Retagger.set_tracks
  by_cases h0 : "TRACKNUMBER" ∈ r.tag.flac_keys
  · rw [if_pos h0, if_neg h1, if_neg h2, if_neg (by rw [h3]; exact Bool.noConfusion)]
  · rw [if_neg h0]

theorem set_tracks_ok (r : Retagger) (hv : KeysValid r.tag) :
    ∃ r', r.set_tracks = .ok r' ∧ KeysValid r'.tag := by
  by_cases h1 : "TRACKNUMBER" ∈ r.tag.flac_keys
  · by_cases h2 : "TRACKTOTAL" ∈ r.tag.flac_keys
    · rw [set_tracks_eq_tt r hv h1 h2]
      exact ⟨_, rfl, keysValid_erase (keysValid_erase hv _) _⟩
    · by_cases h3 : "TOTALTRACKS" ∈ r.tag.flac_keys
      · rw [set_tracks_eq_tot r hv h1 h2 h3]
        exact ⟨_, rfl, keysValid_erase (keysValid_erase hv _) _⟩
      · cases hct : countTruthy r.count with
        | false => rw [set_tracks_eq_none r h2 h3 hct]; exact ⟨r, rfl, hv⟩
        | true =>
          cases h4 : r.count with
          | none => rw [h4] at hct; cases hct
          | some n =>
            have h5 : n ≠ 0 := by
              rw [h4] at hct
              simpa [countTruthy] using hct
            rw [set_tracks_eq_count r hv h1 h2 h3 h4 h5]
            exact ⟨_, rfl, keysValid_erase hv _⟩
  · unfold Retagger.set_tracks
    rw [if_neg h1]
    exact ⟨r, rfl, hv⟩

theorem removeIfPresent_subset (ks : List String) (k : String) :
    removeIfPresent ks k ⊆ ks := by
  unfold removeIfPresent
  split
  · exact List.erase_subset _ _
  · exact fun _ h => h

theorem foldl_removeIfPresent_subset :
    ∀ (ds ks : List String), ds.foldl removeIfPresent ks ⊆ ks := by
  intro ds
  induction ds with
  | nil => exact fun ks _ h => h
  | cons d t ih =>
    intro ks
    rw [List.foldl_cons]
    exact fun x hx => removeIfPresent_subset ks d (ih (removeIfPresent ks d) hx)

theorem set_discs_eq_false (r : Retagger) (hmd : r.multidisc = false) :
    r.set_discs = .ok { r with
      tag := ⟨r.tag.flac, discDropKeys.foldl removeIfPresent r.tag.flac_keys⟩ } := by
  unfold Retagger.set_discs
  have hcond : ¬(r.multidisc = true ∧ "DISCNUMBER" ∈ r.tag.flac_keys ∧
      ("DISCTOTAL" ∈ r.tag.flac_keys ∨ "TOTALDISCS" ∈ r.tag.flac_keys)) := by
    rintro ⟨h, -, -⟩
    rw [hmd] at h
    cases h
  rw [if_neg hcond]
  simp only [bind, Except.bind]
  rw [if_neg (by rw [hmd]; exact Bool.noConfusion)]

theorem set_discs_eq_dt (r : Retagger) (hv : KeysValid r.tag) (hmd : r.multidisc = true)
    (hdn : "DISCNUMBER" ∈ r.tag.flac_keys) (hdt : "DISCTOTAL" ∈ r.tag.flac_keys) :
    r.set_discs = .ok { r with
      tag := ⟨r.tag.flac, (r.tag.flac_keys.erase "DISCNUMBER").erase "DISCTOTAL"⟩,
      id3 := id3Assign r.id3 "discnumber"
        ((flacGet r.tag.flac "DISCNUMBER").headD "" ++ "/" ++
         (flacGet r.tag.flac "DISCTOTAL").headD "") } := by
  unfold Retagger.set_discs
  rw [if_pos ⟨hmd, hdn, Or.inl hdt⟩, if_pos hdt, consume_ok hv hdn]
  simp only [bind, Except.bind]
  rw [consume_ok (keysValid_erase hv _) ((List.mem_erase_of_ne (by decide)).mpr hdt)]
  simp only [bind, Except.bind]
  rw [if_pos hmd]

theorem set_discs_eq_td (r : Retagger) (hv : KeysValid r.tag) (hmd : r.multidisc = true)
    (hdn : "DISCNUMBER" ∈ r.tag.flac_keys) (hdt : "DISCTOTAL" ∉ r.tag.flac_keys)
    (htd : "TOTALDISCS" ∈ r.tag.flac_keys) :
    r.set_discs = .ok { r with
      tag := ⟨r.tag.flac, (r.tag.flac_keys.erase "DISCNUMBER").erase "TOTALDISCS"⟩,
      id3 := id3Assign r.id3 "discnumber"
        ((flacGet r.tag.flac "DISCNUMBER").headD "" ++ "/" ++
         (flacGet r.tag.flac "TOTALDISCS").headD "") } := by
  unfold Retagger.set_discs
  rw [if_pos ⟨hmd, hdn, Or.inr htd⟩, if_neg hdt, if_pos htd, consume_ok hv hdn]
  simp only [bind, Except.bind]
  rw [consume_ok (keysValid_erase hv _) ((List.mem_erase_of_ne (by decide)).mpr htd)]
  simp only [bind, Except.bind]
  rw [if_pos hmd]

theorem set_discs_eq_skip (r : Retagger) (hmd : r.multidisc = true)
    (hnc : ¬("DISCNUMBER" ∈ r.tag.flac_keys ∧
      ("DISCTOTAL" ∈ r.tag.flac_keys ∨ "TOTALDISCS" ∈ r.tag.flac_keys))) :
    r.set_discs = .ok r := by
  unfold Retagger.set_discs
  rw [if_neg (fun h => hnc ⟨h.2.1, h.2.2⟩)]
  simp only [bind, Except.bind]
  rw [if_pos hmd]

theorem set_discs_ok (r : Retagger) (hv : KeysValid r.tag) :
    ∃ r', r.set_discs = .ok r' ∧ KeysValid r'.tag := by
  cases hmd : r.multidisc with
  | false =>
    rw [set_discs_eq_false r hmd]
    exact ⟨_, rfl, keysValid_sub hv (fun k hk => foldl_removeIfPresent_subset _ _ hk)⟩
  | true =>
    by_cases hdn : "DISCNUMBER" ∈ r.tag.flac_keys
    · by_cases hdt : "DISCTOTAL" ∈ r.tag.flac_keys
      · rw [set_discs_eq_dt r hv hmd hdn hdt]
        exact ⟨_, rfl, keysValid_erase (keysValid_erase hv _) _⟩
      · by_cases htd : "TOTALDISCS" ∈ r.tag.flac_keys
        · rw [set_discs_eq_td r hv hmd hdn hdt htd]
          exact ⟨_, rfl, keysValid_erase (keysValid_erase hv _) _⟩
        · rw [set_discs_eq_skip r hmd (by tauto)]
          exact ⟨r, rfl, hv⟩
    · rw [set_discs_eq_skip r hmd (by tauto)]
      exact ⟨r, rfl, hv⟩

theorem count_cons_head_mem {a : String} {t keys : List String}
    (hc : ∀ k, List.count k (a :: t) ≤ List.count k keys) : a ∈ keys := by
  apply List.count_pos_iff.mp
  have := hc a
  rw [List.count_cons] at this
  simp at this
  omega

theorem count_cons_tail_le {a : String} {t keys : List String}
    (hc : ∀ k, List.count k (a :: t) ≤ List.count k keys) :
    ∀ k, List.count k t ≤ List.count k (keys.erase a) := by
  intro k
  have hck := hc k
  rw [List.count_cons] at hck
  by_cases hka : k = a
  · subst hka
    rw [List.count_erase_self]
    simp at hck
    omega
  · rw [List.count_erase_of_ne hka]
    have : (a == k) = false := by
      simp
      exact fun h => hka h.symm
    rw [this] at hck
    omega

theorem count_cons_tail_le' {a : String} {t keys : List String}
    (hc : ∀ k, List.count k (a :: t) ≤ List.count k keys) :
    ∀ k, List.count k t ≤ List.count k keys := by
  intro k
  have hck := hc k
  rw [List.count_cons] at hck
  split at hck <;> omega

theorem knownStep_eq_pos {r : Retagger} {key : String} (hk : pyLower key ∈ r.validKeys) :
    r.knownStep key = r.consumeAssign key := by
  unfold Retagger.knownStep
  rw [if_pos hk]

theorem knownStep_eq_neg {r : Retagger} {key : String} (hk : pyLower key ∉ r.validKeys) :
    r.knownStep key = .ok r := by
  unfold Retagger.knownStep
  rw [if_neg hk]

theorem setKnown_loop_ok :
    ∀ (l : List String) (r : Retagger),
      (∀ k, List.count k l ≤ List.count k r.tag.flac_keys) → KeysValid r.tag →
      ∃ r', List.foldlM Retagger.knownStep r l = .ok r' ∧ KeysValid r'.tag := by
  intro l
  induction l with
  | nil => intro r _ hv; exact ⟨r, rfl, hv⟩
  | cons a t ih =>
    intro r hc hv
    have ha : a ∈ r.tag.flac_keys := count_cons_head_mem hc
    rw [List.foldlM_cons]
    by_cases hk : pyLower a ∈ r.validKeys
    · rw [knownStep_eq_pos hk, consumeAssign_ok hv ha]
      obtain ⟨r2, h2, hv2⟩ := ih { r with
          tag := ⟨r.tag.flac, r.tag.flac_keys.erase a⟩,
          id3 := id3Assign r.id3 a ((flacGet r.tag.flac a).headD "") }
        (count_cons_tail_le hc) (keysValid_erase hv a)
      refine ⟨r2, ?_, hv2⟩
      simpa [bind, Except.bind] using h2
    · rw [knownStep_eq_neg hk]
      obtain ⟨r2, h2, hv2⟩ := ih r (count_cons_tail_le' hc) hv
      refine ⟨r2, ?_, hv2⟩
      simpa [bind, Except.bind] using h2

theorem setKnown_ok (r : Retagger) (hv : KeysValid r.tag) :
    ∃ r', r.setKnown = .ok r' ∧ KeysValid r'.tag :=
  setKnown_loop_ok r.tag.flac_keys r (fun _ => le_refl _) hv

theorem customStep_eq {r : Retagger} {key : String} (hv : KeysValid r.tag)
    (hk : key ∈ r.tag.flac_keys) :
    r.customStep key = .ok
      ⟨⟨r.tag.flac, r.tag.flac_keys.erase key⟩,
       id3Assign r.id3 key ((flacGet r.tag.flac key).headD ""),
       registerTXXX r.validKeys key, r.count, r.multidisc⟩ := by
  unfold Retagger.customStep
  rw [consume_ok hv hk]
  rfl

/-- The custom pass consumes every key of its snapshot, assigns each verbatim
under its lower-cased name (first stored value) and registers each name. -/
theorem setCustom_spec :
    ∀ (l : List String) (r : Retagger),
      (∀ k, List.count k r.tag.flac_keys = List.count k l) → KeysValid r.tag →
      List.foldlM Retagger.customStep r l = .ok
        ⟨⟨r.tag.flac, []⟩,
         r.id3 ++ l.map (fun k => (pyLower k, (flacGet r.tag.flac k).headD "")),
         l.foldl registerTXXX r.validKeys, r.count, r.multidisc⟩ := by
  intro l
  induction l with
  | nil =>
    intro r hc hv
    have hnil : r.tag.flac_keys = [] := by
      apply List.eq_nil_iff_forall_not_mem.mpr
      intro k hk
      have h1 := List.count_pos_iff.mpr hk
      have h2 := hc k
      simp [List.count_nil] at h2
      omega
    cases r with
    | mk tag id3 vk cnt md =>
      cases tag with
      | mk flac keys =>
        simp only at hnil
        subst hnil
        simp only [List.foldlM, List.map_nil, List.foldl_nil, List.append_nil]
        rfl
  | cons a t ih =>
    intro r hc hv
    have ha : a ∈ r.tag.flac_keys := by
      apply List.count_pos_iff.mp
      rw [hc a, List.count_cons]
      simp
    rw [List.foldlM_cons, customStep_eq hv ha]
    have hc1 : ∀ k, List.count k (r.tag.flac_keys.erase a) = List.count k t := by
      intro k
      by_cases hka : k = a
      · subst hka
        rw [List.count_erase_self, hc k, List.count_cons]
        simp
      · rw [List.count_erase_of_ne hka, hc k, List.count_cons]
        have hf : (a == k) = false := by
          simp
          exact fun h => hka h.symm
        rw [hf]
        simp
    have hrec := ih (Retagger.mk ⟨r.tag.flac, r.tag.flac_keys.erase a⟩
       (id3Assign r.id3 a ((flacGet r.tag.flac a).headD ""))
       (registerTXXX r.validKeys a) r.count r.multidisc) hc1 (keysValid_erase hv a)
    simp only [bind, Except.bind]
    rw [hrec]
    simp only [id3Assign, List.map_cons, List.foldl_cons, List.append_assoc,
      List.singleton_append]

theorem setCustom_empties (r : Retagger) (hv : KeysValid r.tag) :
    r.setCustom = .ok
      ⟨⟨r.tag.flac, []⟩,
       r.id3 ++ r.tag.flac_keys.map (fun k => (pyLower k, (flacGet r.tag.flac k).headD "")),
       r.tag.flac_keys.foldl registerTXXX r.validKeys, r.count, r.multidisc⟩ :=
  setCustom_spec r.tag.flac_keys r (fun _ => rfl) hv

/-- C1: a full mapping pass always completes and leaves no active source
field: every field present at construction is mapped, discarded or forwarded. -/
theorem claim1_active_fields_empty (tags : List (String × String)) (vk : List String)
    (count : Option Nat) (md : Bool) :
    ∃ r', (Retagger.init tags vk count md).retag = .ok r' ∧ r'.tag.flac_keys = [] := by
  have hv0 : KeysValid (Retagger.init tags vk count md).tag := keysValid_init tags
  obtain ⟨r1, e1, v1⟩ := setEssentials_ok (Retagger.init tags vk count md) hv0
  obtain ⟨r2, e2, v2⟩ := set_tracks_ok r1 v1
  obtain ⟨r3, e3, v3⟩ := set_discs_ok r2 v2
  obtain ⟨r4, e4, v4⟩ := dropNumbering_ok r3 v3
  obtain ⟨r5, e5, v5⟩ := setKnown_ok r4 v4
  refine ⟨⟨⟨r5.tag.flac, []⟩,
      r5.id3 ++ r5.tag.flac_keys.map (fun k => (pyLower k, (flacGet r5.tag.flac k).headD "")),
      r5.tag.flac_keys.foldl registerTXXX r5.validKeys, r5.count, r5.multidisc⟩, ?_, rfl⟩
  unfold Retagger.retag
  rw [e1]
  simp only [bind, Except.bind]
  rw [e2]
  simp only [bind, Except.bind]
  rw [e3]
  simp only [bind, Except.bind]
  rw [e4]
  simp only [bind, Except.bind]
  rw [e5]
  simp only [bind, Except.bind]
  exact setCustom_empties r5 v5

/-- Counterexample to C2: on `{TRACKNUMBER: "3"}` with no item count, the full
mapping pass assigns no destination field at all — there is no bare-position
branch; the spec's claimed destination track field `"3"` does not exist. -/
theorem claim2_counterexample :
    Retagger.retag (Retagger.init [("TRACKNUMBER", "3")] [] none false) =
      .ok ⟨⟨[("TRACKNUMBER", "3")], []⟩, [], [], none, false⟩ := by decide

/-- C2 as amended: when a track-number field is active but no track-total
field, no total-tracks synonym and no item count is available, the
track-numbering group does nothing — it neither consumes the field nor
assigns any destination track field (the field is later discarded by the
residual numbering cleanup). -/
theorem claim2_amended_no_bare_position (r : Retagger)
    (h0 : "TRACKNUMBER" ∈ r.tag.flac_keys)
    (h1 : "TRACKTOTAL" ∉ r.tag.flac_keys) (h2 : "TOTALTRACKS" ∉ r.tag.flac_keys)
    (h3 : countTruthy r.count = false) :
    r.set_tracks = .ok r :=
  set_tracks_eq_none r h1 h2 h3

/-- Witness for C2 (amended): on `{TRACKNUMBER: "3"}` with no count the track
group is the identity. -/
theorem claim2_witness :
    Retagger.set_tracks (Retagger.init [("TRACKNUMBER", "3")] [] none false) =
      .ok (Retagger.init [("TRACKNUMBER", "3")] [] none false) :=
  claim2_amended_no_bare_position (Retagger.init [("TRACKNUMBER", "3")] [] none false)
    (by decide) (by decide) (by decide) (by decide)

/-- C5: with a track-number field active, the composite total is resolved in
priority order — `TRACKTOTAL` first, else `TOTALTRACKS`, else the item count —
consuming the participating fields and assigning destination `tracknumber` as
`"position/total"`. -/
theorem claim5_track_total_priority (r : Retagger) (hv : KeysValid r.tag)
    (htn : "TRACKNUMBER" ∈ r.tag.flac_keys) :
    ("TRACKTOTAL" ∈ r.tag.flac_keys →
      r.set_tracks = .ok { r with
        tag := ⟨r.tag.flac, (r.tag.flac_keys.erase "TRACKNUMBER").erase "TRACKTOTAL"⟩,
        id3 := id3Assign r.id3 "tracknumber"
          ((flacGet r.tag.flac "TRACKNUMBER").headD "" ++ "/" ++
           (flacGet r.tag.flac "TRACKTOTAL").headD "") }) ∧
    ("TRACKTOTAL" ∉ r.tag.flac_keys → "TOTALTRACKS" ∈ r.tag.flac_keys →
      r.set_tracks = .ok { r with
        tag := ⟨r.tag.flac, (r.tag.flac_keys.erase "TRACKNUMBER").erase "TOTALTRACKS"⟩,
        id3 := id3Assign r.id3 "tracknumber"
          ((flacGet r.tag.flac "TRACKNUMBER").headD "" ++ "/" ++
           (flacGet r.tag.flac "TOTALTRACKS").headD "") }) ∧
    (∀ n : Nat, "TRACKTOTAL" ∉ r.tag.flac_keys → "TOTALTRACKS" ∉ r.tag.flac_keys →
      r.count = some n → n ≠ 0 →
      r.set_tracks = .ok { r with
        tag := ⟨r.tag.flac, r.tag.flac_keys.erase "TRACKNUMBER"⟩,
        id3 := id3Assign r.id3 "tracknumber"
          ((flacGet r.tag.flac "TRACKNUMBER").headD "" ++ "/" ++ Nat.repr n) }) :=
  ⟨fun h2 => set_tracks_eq_tt r hv htn h2,
   fun h2 h3 => set_tracks_eq_tot r hv htn h2 h3,
   fun n h2 h3 h4 h5 => set_tracks_eq_count r hv htn h2 h3 h4 h5⟩

/-- Witness for C5: `{TRACKNUMBER: "3", TRACKTOTAL: "12"}` and
`{TRACKNUMBER: "3", TOTALTRACKS: "12"}` both yield `"3/12"`, and
`{TRACKNUMBER: "3"}` with item count 10 yields `"3/10"`. -/
theorem claim5_witness :
    Retagger.set_tracks (Retagger.init [("TRACKNUMBER", "3"), ("TRACKTOTAL", "12")] [] none false) =
      .ok ⟨⟨[("TRACKNUMBER", "3"), ("TRACKTOTAL", "12")], []⟩,
           [("tracknumber", "3/12")], [], none, false⟩ ∧
    Retagger.set_tracks (Retagger.init [("TRACKNUMBER", "3"), ("TOTALTRACKS", "12")] [] none false) =
      .ok ⟨⟨[("TRACKNUMBER", "3"), ("TOTALTRACKS", "12")], []⟩,
           [("tracknumber", "3/12")], [], none, false⟩ ∧
    Retagger.set_tracks (Retagger.init [("TRACKNUMBER", "3")] [] (some 10) false) =
      .ok ⟨⟨[("TRACKNUMBER", "3")], []⟩, [("tracknumber", "3/10")], [], some 10, false⟩ := by
  refine ⟨?_, ?_, ?_⟩
  · have h := (claim5_track_total_priority
      (Retagger.init [("TRACKNUMBER", "3"), ("TRACKTOTAL", "12")] [] none false)
      (by decide) (by decide)).1 (by decide)
    exact h.trans (by decide)
  · have h := (claim5_track_total_priority
      (Retagger.init [("TRACKNUMBER", "3"), ("TOTALTRACKS", "12")] [] none false)
      (by decide) (by decide)).2.1 (by decide) (by decide)
    exact h.trans (by decide)
  · have h := (claim5_track_total_priority
      (Retagger.init [("TRACKNUMBER", "3")] [] (some 10) false)
      (by decide) (by decide)).2.2 10 (by decide) (by decide) rfl (by decide)
    exact h.trans (by decide)

theorem count_removeIfPresent_le (ks : List String) (d k : String) :
    List.count k (removeIfPresent ks d) ≤ List.count k ks := by
  unfold removeIfPresent
  split
  · by_cases hk : k = d
    · subst hk
      rw [List.count_erase_self]
      omega
    · rw [List.count_erase_of_ne hk]
  · exact le_refl _

theorem count_foldl_removeIfPresent_le :
    ∀ (ds ks : List String) (k : String),
      List.count k (ds.foldl removeIfPresent ks) ≤ List.count k ks := by
  intro ds
  induction ds with
  | nil => intro ks k; exact le_refl _
  | cons d t ih =>
    intro ks k
    rw [List.foldl_cons]
    exact le_trans (ih (removeIfPresent ks d) k) (count_removeIfPresent_le ks d k)

theorem count_foldl_removeIfPresent_mem :
    ∀ (ds ks : List String) (k : String), k ∈ ds →
      List.count k (ds.foldl removeIfPresent ks) ≤ List.count k ks - 1 := by
  intro ds
  induction ds with
  | nil => intro ks k hk; cases hk
  | cons d t ih =>
    intro ks k hk
    rw [List.foldl_cons]
    by_cases hkd : k = d
    · subst hkd
      refine le_trans (count_foldl_removeIfPresent_le t (removeIfPresent ks k) k) ?_
      unfold removeIfPresent
      split
      · rw [List.count_erase_self]
      · rename_i hnm
        have := List.count_eq_zero.mpr hnm
        omega
    · rcases List.mem_cons.mp hk with h | h
      · exact absurd h hkd
      · refine le_trans (ih (removeIfPresent ks d) k h) ?_
        have := count_removeIfPresent_le ks d k
        omega

theorem not_mem_foldl_removeIfPresent {ds ks : List String} {k : String}
    (hk : k ∈ ds) (hc : List.count k ks ≤ 1) :
    k ∉ ds.foldl removeIfPresent ks := by
  intro hm
  have h1 := List.count_pos_iff.mpr hm
  have h2 := count_foldl_removeIfPresent_mem ds ks k hk
  omega

/-- Counterexample to C6: with three `DISCNUMBER` comments and the multi-disc
flag false, one occurrence survives the disc group's purge and the residual
cleanup, and the full pass forwards it: destination field `discnumber` is
assigned (value `"1"`, the first stored value) and the name is registered as a
custom field — contradicting that no disc destination field is assigned and
that disc bookkeeping fields are never forwarded as custom fields. -/
theorem claim6_counterexample :
    Retagger.retag (Retagger.init
      [("DISCNUMBER", "1"), ("DISCNUMBER", "2"), ("DISCNUMBER", "3")] [] none false) =
      .ok ⟨⟨[("DISCNUMBER", "1"), ("DISCNUMBER", "2"), ("DISCNUMBER", "3")], []⟩,
           [("discnumber", "1")], ["discnumber"], none, false⟩ := by decide

/-- C6 as amended: the disc group assigns the composite `discnumber` exactly
when the multi-disc flag is true, `DISCNUMBER` is active and a disc-total
synonym is active (preferring `DISCTOTAL`), consuming both; when the flag is
false it assigns nothing and removes one occurrence of each of the three disc
bookkeeping names — all occurrences only when each name is active at most
once. -/
theorem claim6_amended_discs (r : Retagger) (hv : KeysValid r.tag) :
    (r.multidisc = false →
      r.set_discs = .ok { r with
        tag := ⟨r.tag.flac, discDropKeys.foldl removeIfPresent r.tag.flac_keys⟩ } ∧
      (∀ k ∈ discDropKeys, List.count k r.tag.flac_keys ≤ 1 →
        k ∉ discDropKeys.foldl removeIfPresent r.tag.flac_keys)) ∧
    (r.multidisc = true → "DISCNUMBER" ∈ r.tag.flac_keys → "DISCTOTAL" ∈ r.tag.flac_keys →
      r.set_discs = .ok { r with
        tag := ⟨r.tag.flac, (r.tag.flac_keys.erase "DISCNUMBER").erase "DISCTOTAL"⟩,
        id3 := id3Assign r.id3 "discnumber"
          ((flacGet r.tag.flac "DISCNUMBER").headD "" ++ "/" ++
           (flacGet r.tag.flac "DISCTOTAL").headD "") }) ∧
    (r.multidisc = true → "DISCNUMBER" ∈ r.tag.flac_keys → "DISCTOTAL" ∉ r.tag.flac_keys →
      "TOTALDISCS" ∈ r.tag.flac_keys →
      r.set_discs = .ok { r with
        tag := ⟨r.tag.flac, (r.tag.flac_keys.erase "DISCNUMBER").erase "TOTALDISCS"⟩,
        id3 := id3Assign r.id3 "discnumber"
          ((flacGet r.tag.flac "DISCNUMBER").headD "" ++ "/" ++
           (flacGet r.tag.flac "TOTALDISCS").headD "") }) ∧
    (r.multidisc = true → ¬("DISCNUMBER" ∈ r.tag.flac_keys ∧
        ("DISCTOTAL" ∈ r.tag.flac_keys ∨ "TOTALDISCS" ∈ r.tag.flac_keys)) →
      r.set_discs = .ok r) :=
  ⟨fun hmd => ⟨set_discs_eq_false r hmd,
    fun _ hk hc => not_mem_foldl_removeIfPresent hk hc⟩,
   fun hmd h1 h2 => set_discs_eq_dt r hv hmd h1 h2,
   fun hmd h1 h2 h3 => set_discs_eq_td r hv hmd h1 h2 h3,
   fun hmd hnc => set_discs_eq_skip r hmd hnc⟩

/-- Witness for C6 (amended): with the flag false, `{DISCNUMBER: "1",
DISCTOTAL: "2"}` is purged without any assignment; with the flag true,
`{DISCNUMBER: "2", DISCTOTAL: "2"}` yields destination disc field `"2/2"`. -/
theorem claim6_witness :
    Retagger.set_discs (Retagger.init [("DISCNUMBER", "1"), ("DISCTOTAL", "2")] [] none false) =
      .ok ⟨⟨[("DISCNUMBER", "1"), ("DISCTOTAL", "2")], []⟩, [], [], none, false⟩ ∧
    Retagger.set_discs (Retagger.init [("DISCNUMBER", "2"), ("DISCTOTAL", "2")] [] none true) =
      .ok ⟨⟨[("DISCNUMBER", "2"), ("DISCTOTAL", "2")], []⟩,
           [("discnumber", "2/2")], [], none, true⟩ := by
  constructor
  · have h := ((claim6_amended_discs
      (Retagger.init [("DISCNUMBER", "1"), ("DISCTOTAL", "2")] [] none false)
      (by decide)).1 rfl).1
    exact h.trans (by decide)
  · have h := (claim6_amended_discs
      (Retagger.init [("DISCNUMBER", "2"), ("DISCTOTAL", "2")] [] none true)
      (by decide)).2.1 rfl (by decide) (by decide)
    exact h.trans (by decide)

theorem mem_registerTXXX_self (reg : List String) (key : String) :
    pyLower key ∈ registerTXXX reg key := by
  unfold registerTXXX
  split
  · assumption
  · exact List.mem_append_right _ (List.mem_cons_self _ _)

theorem mem_registerTXXX_mono {x : String} {reg : List String} (key : String)
    (hx : x ∈ reg) : x ∈ registerTXXX reg key := by
  unfold registerTXXX
  split
  · exact hx
  · exact List.mem_append_left _ hx

theorem mem_foldl_registerTXXX_mono :
    ∀ (l : List String) (reg : List String) {x : String}, x ∈ reg →
      x ∈ l.foldl registerTXXX reg := by
  intro l
  induction l with
  | nil => exact fun reg _ hx => hx
  | cons a t ih =>
    intro reg x hx
    rw [List.foldl_cons]
    exact ih _ (mem_registerTXXX_mono a hx)

theorem mem_foldl_registerTXXX :
    ∀ (l : List String) (reg : List String) {k : String}, k ∈ l →
      pyLower k ∈ l.foldl registerTXXX reg := by
  intro l
  induction l with
  | nil => intro reg k hk; cases hk
  | cons a t ih =>
    intro reg k hk
    rw [List.foldl_cons]
    rcases List.mem_cons.mp hk with rfl | h
    · exact mem_foldl_registerTXXX_mono t _ (mem_registerTXXX_self reg k)
    · exact ih _ h

/-- C8: every field still active at the custom pass is consumed, registered
as a permitted TXXX name (idempotently: registering an already-registered
name leaves the registry unchanged, also across items since the registry is
threaded) and assigned verbatim under its own lower-cased name with its first
stored value. -/
theorem claim8_custom_passthrough (r : Retagger) (hv : KeysValid r.tag) :
    r.setCustom = .ok
      ⟨⟨r.tag.flac, []⟩,
       r.id3 ++ r.tag.flac_keys.map (fun k => (pyLower k, (flacGet r.tag.flac k).headD "")),
       r.tag.flac_keys.foldl registerTXXX r.validKeys, r.count, r.multidisc⟩ ∧
    (∀ k ∈ r.tag.flac_keys, pyLower k ∈ r.tag.flac_keys.foldl registerTXXX r.validKeys) ∧
    (∀ (reg : List String) (key : String), pyLower key ∈ reg →
      registerTXXX reg key = reg) :=
  ⟨setCustom_empties r hv,
   fun _ hk => mem_foldl_registerTXXX _ _ hk,
   fun reg key h => by unfold registerTXXX; rw [if_pos h]⟩

/-- Witness for C8: the unrecognized field `MOOD: "Mellow"` (registry
`["artist"]`) ends up as destination `("mood", "Mellow")` with `mood`
registered once; registering `MOOD` again is a no-op. -/
theorem claim8_witness :
    Retagger.setCustom (Retagger.init [("MOOD", "Mellow")] ["artist"] none false) =
      .ok ⟨⟨[("MOOD", "Mellow")], []⟩, [("mood", "Mellow")], ["artist", "mood"], none, false⟩ ∧
    registerTXXX ["artist", "mood"] "MOOD" = ["artist", "mood"] := by
  constructor
  · have h := (claim8_custom_passthrough
      (Retagger.init [("MOOD", "Mellow")] ["artist"] none false) (by decide)).1
    exact h.trans (by decide)
  · exact (claim8_custom_passthrough
      (Retagger.init [("MOOD", "Mellow")] ["artist"] none false) (by decide)).2.2
      ["artist", "mood"] "MOOD" (by decide)

/-- Invariant for the no-duplicate-destination-writes property: the
destination log has pairwise distinct keys, the active key list is
duplicate-free and upper-normalized, and no active key's lower-cased
destination name has been assigned yet. -/
def WriteInv (id3 : List (String × String)) (keys : List String) : Prop :=
  (id3.map Prod.fst).Nodup ∧ keys.Nodup ∧
  ∀ k ∈ keys, pyUpper k = k ∧ pyLower k ∉ id3.map Prod.fst

theorem writeInv_assign {id3 : List (String × String)} {keys : List String}
    (h : WriteInv id3 keys) {src : String} (hsrc : src ∈ keys) (v : String)
    {ks' : List String} (hks : ∀ k ∈ ks', k ∈ keys.erase src) (hnd : ks'.Nodup) :
    WriteInv (id3 ++ [(pyLower src, v)]) ks' := by
  obtain ⟨h1, h2, h3⟩ := h
  have hsrcU : pyUpper src = src := (h3 src hsrc).1
  have hnotin : pyLower src ∉ id3.map Prod.fst := (h3 src hsrc).2
  refine ⟨?_, hnd, ?_⟩
  · rw [List.map_append]
    rw [List.nodup_append]
    refine ⟨h1, by simp, ?_⟩
    intro x hx hx'
    simp at hx'
    subst hx'
    exact hnotin hx
  · intro k hk
    have hk' := hks k hk
    have hkmem : k ∈ keys := List.mem_of_mem_erase hk'
    have hkne : k ≠ src := (h2.mem_erase_iff.mp hk').1
    refine ⟨(h3 k hkmem).1, ?_⟩
    rw [List.map_append]
    rw [List.mem_append]
    rintro (hin | hin)
    · exact (h3 k hkmem).2 hin
    · simp at hin
      exact hkne (pyLower_inj_on_upper (h3 k hkmem).1 hsrcU hin)

theorem writeInv_shrink {id3 : List (String × String)} {keys ks' : List String}
    (h : WriteInv id3 keys) (hks : ∀ k ∈ ks', k ∈ keys) (hnd : ks'.Nodup) :
    WriteInv id3 ks' :=
  ⟨h.1, hnd, fun k hk => h.2.2 k (hks k hk)⟩

theorem consume_ok_inv {t : Taginfo} {key v : String} {t' : Taginfo}
    (h : t.consume key = .ok (v, t')) :
    key ∈ t.flac_keys ∧ v = (flacGet t.flac key).headD "" ∧
      t' = ⟨t.flac, t.flac_keys.erase key⟩ := by
  simp only [Taginfo.consume] at h
  split at h
  · cases h
  · split at h
    · rename_i hmem
      injection h with h
      injection h with hv ht
      exact ⟨hmem, hv.symm, ht.symm⟩
    · cases h

theorem id3Assign_lower (log : List (String × String)) (dst src v : String)
    (h : pyLower dst = pyLower src) :
    id3Assign log dst v = log ++ [(pyLower src, v)] := by
  unfold id3Assign
  rw [h]

theorem consumeAssign_inv {r r' : Retagger} {key : String}
    (h : r.consumeAssign key = .ok r')
    (hw : WriteInv r.id3 r.tag.flac_keys) : WriteInv r'.id3 r'.tag.flac_keys := by
  unfold Retagger.consumeAssign at h
  cases hc : r.tag.consume key with
  | error e =>
    rw [hc] at h
    simp [bind, Except.bind] at h
  | ok p =>
    rw [hc] at h
    cases p with
    | mk v t' =>
      obtain ⟨hmem, -, ht'⟩ := consume_ok_inv hc
      simp only [bind, Except.bind] at h
      injection h with h
      subst h
      subst ht'
      rw [id3Assign_lower r.id3 key key v rfl]
      exact writeInv_assign hw hmem v (fun _ hk => hk) (hw.2.1.erase _)

theorem essStep_inv (r : Retagger) (key : String) (r' : Retagger)
    (h : r.essStep key = .ok r') (hw : WriteInv r.id3 r.tag.flac_keys) :
    WriteInv r'.id3 r'.tag.flac_keys := by
  unfold Retagger.essStep at h
  split at h
  · exact consumeAssign_inv h hw
  · injection h with h
    subst h
    exact hw

theorem knownStep_inv (r : Retagger) (key : String) (r' : Retagger)
    (h : r.knownStep key = .ok r') (hw : WriteInv r.id3 r.tag.flac_keys) :
    WriteInv r'.id3 r'.tag.flac_keys := by
  unfold Retagger.knownStep at h
  split at h
  · exact consumeAssign_inv h hw
  · injection h with h
    subst h
    exact hw

theorem dropStep_inv (r : Retagger) (key : String) (r' : Retagger)
    (h : r.dropStep key = .ok r') (hw : WriteInv r.id3 r.tag.flac_keys) :
    WriteInv r'.id3 r'.tag.flac_keys := by
  unfold Retagger.dropStep at h
  split at h
  · obtain ⟨⟨v, t'⟩, hc, h⟩ := except_bind_ok h
    obtain ⟨-, -, ht'⟩ := consume_ok_inv hc
    injection h with h
    subst h
    subst ht'
    exact writeInv_shrink hw (fun _ hk => List.mem_of_mem_erase hk) (hw.2.1.erase _)
  · injection h with h
    subst h
    exact hw

theorem customStep_inv (r : Retagger) (key : String) (r' : Retagger)
    (h : r.customStep key = .ok r') (hw : WriteInv r.id3 r.tag.flac_keys) :
    WriteInv r'.id3 r'.tag.flac_keys := by
  unfold Retagger.customStep at h
  obtain ⟨⟨v, t'⟩, hc, h⟩ := except_bind_ok h
  obtain ⟨hmem, -, ht'⟩ := consume_ok_inv hc
  injection h with h
  subst h
  subst ht'
  show WriteInv (id3Assign r.id3 key v) (r.tag.flac_keys.erase key)
  rw [id3Assign_lower r.id3 key key v rfl]
  exact writeInv_assign hw hmem v (fun _ hk => hk) (hw.2.1.erase _)

theorem foldlM_pres {β : Type} {f : Retagger → β → Except PyError Retagger}
    (hf : ∀ r k r', f r k = .ok r' → WriteInv r.id3 r.tag.flac_keys →
      WriteInv r'.id3 r'.tag.flac_keys) :
    ∀ (l : List β) (r r' : Retagger), List.foldlM f r l = .ok r' →
      WriteInv r.id3 r.tag.flac_keys → WriteInv r'.id3 r'.tag.flac_keys := by
  intro l
  induction l with
  | nil =>
    intro r r' h hw
    rw [List.foldlM_nil] at h
    simp only [pure, Except.pure] at h
    injection h with h
    subst h
    exact hw
  | cons a t ih =>
    intro r r' h hw
    rw [List.foldlM_cons] at h
    obtain ⟨r1, h1, h2⟩ := except_bind_ok h
    exact ih r1 r' h2 (hf r a r1 h1 hw)

theorem set_tracks_inv {r r' : Retagger} (h : r.set_tracks = .ok r')
    (hw : WriteInv r.id3 r.tag.flac_keys) : WriteInv r'.id3 r'.tag.flac_keys := by
  unfold Retagger.set_tracks at h
  split at h
  case isFalse =>
    injection h with h
    subst h
    exact hw
  rename_i htn
  split at h
  · obtain ⟨⟨tn, t1⟩, hc1, h⟩ := except_bind_ok h
    obtain ⟨hm1, -, ht1⟩ := consume_ok_inv hc1
    subst ht1
    obtain ⟨⟨tt, t2⟩, hc2, h⟩ := except_bind_ok h
    obtain ⟨-, -, ht2⟩ := consume_ok_inv hc2
    subst ht2
    injection h with h
    subst h
    show WriteInv (id3Assign r.id3 "tracknumber" (tn ++ "/" ++ tt))
      ((r.tag.flac_keys.erase "TRACKNUMBER").erase "TRACKTOTAL")
    rw [id3Assign_lower r.id3 "tracknumber" "TRACKNUMBER" _ (by decide)]
    exact writeInv_assign hw hm1 _
      (fun _ hk => List.mem_of_mem_erase hk) ((hw.2.1.erase _).erase _)
  split at h
  · obtain ⟨⟨tn, t1⟩, hc1, h⟩ := except_bind_ok h
    obtain ⟨hm1, -, ht1⟩ := consume_ok_inv hc1
    subst ht1
    obtain ⟨⟨tt, t2⟩, hc2, h⟩ := except_bind_ok h
    obtain ⟨-, -, ht2⟩ := consume_ok_inv hc2
    subst ht2
    injection h with h
    subst h
    show WriteInv (id3Assign r.id3 "tracknumber" (tn ++ "/" ++ tt))
      ((r.tag.flac_keys.erase "TRACKNUMBER").erase "TOTALTRACKS")
    rw [id3Assign_lower r.id3 "tracknumber" "TRACKNUMBER" _ (by decide)]
    exact writeInv_assign hw hm1 _
      (fun _ hk => List.mem_of_mem_erase hk) ((hw.2.1.erase _).erase _)
  split at h
  · obtain ⟨⟨tn, t1⟩, hc1, h⟩ := except_bind_ok h
    obtain ⟨hm1, -, ht1⟩ := consume_ok_inv hc1
    subst ht1
    injection h with h
    subst h
    show WriteInv (id3Assign r.id3 "tracknumber" (tn ++ "/" ++ Nat.repr (r.count.getD 0)))
      (r.tag.flac_keys.erase "TRACKNUMBER")
    rw [id3Assign_lower r.id3 "tracknumber" "TRACKNUMBER" _ (by decide)]
    exact writeInv_assign hw hm1 _ (fun _ hk => hk) (hw.2.1.erase _)
  · injection h with h
    subst h
    exact hw

theorem nodup_removeIfPresent {ks : List String} (h : ks.Nodup) (k : String) :
    (removeIfPresent ks k).Nodup := by
  unfold removeIfPresent
  split
  · exact h.erase k
  · exact h

theorem nodup_foldl_removeIfPresent :
    ∀ (ds ks : List String), ks.Nodup → (ds.foldl removeIfPresent ks).Nodup := by
  intro ds
  induction ds with
  | nil => exact fun ks h => h
  | cons d t ih =>
    intro ks h
    rw [List.foldl_cons]
    exact ih _ (nodup_removeIfPresent h d)

theorem set_discs_inv {r r' : Retagger} (h : r.set_discs = .ok r')
    (hw : WriteInv r.id3 r.tag.flac_keys) : WriteInv r'.id3 r'.tag.flac_keys := by
  unfold Retagger.set_discs at h
  obtain ⟨r1, h1, h2⟩ := except_bind_ok h
  have hw1 : WriteInv r1.id3 r1.tag.flac_keys := by
    split at h1
    · split at h1
      · obtain ⟨⟨dn, t1⟩, hc1, h1⟩ := except_bind_ok h1
        obtain ⟨hm1, -, ht1⟩ := consume_ok_inv hc1
        subst ht1
        obtain ⟨⟨dt, t2⟩, hc2, h1⟩ := except_bind_ok h1
        obtain ⟨-, -, ht2⟩ := consume_ok_inv hc2
        subst ht2
        injection h1 with h1
        subst h1
        show WriteInv (id3Assign r.id3 "discnumber" (dn ++ "/" ++ dt))
          ((r.tag.flac_keys.erase "DISCNUMBER").erase "DISCTOTAL")
        rw [id3Assign_lower r.id3 "discnumber" "DISCNUMBER" _ (by decide)]
        exact writeInv_assign hw hm1 _
          (fun _ hk => List.mem_of_mem_erase hk) ((hw.2.1.erase _).erase _)
      · split at h1
        · obtain ⟨⟨dn, t1⟩, hc1, h1⟩ := except_bind_ok h1
          obtain ⟨hm1, -, ht1⟩ := consume_ok_inv hc1
          subst ht1
          obtain ⟨⟨dt, t2⟩, hc2, h1⟩ := except_bind_ok h1
          obtain ⟨-, -, ht2⟩ := consume_ok_inv hc2
          subst ht2
          injection h1 with h1
          subst h1
          show WriteInv (id3Assign r.id3 "discnumber" (dn ++ "/" ++ dt))
            ((r.tag.flac_keys.erase "DISCNUMBER").erase "TOTALDISCS")
          rw [id3Assign_lower r.id3 "discnumber" "DISCNUMBER" _ (by decide)]
          exact writeInv_assign hw hm1 _
            (fun _ hk => List.mem_of_mem_erase hk) ((hw.2.1.erase _).erase _)
        · injection h1 with h1
          subst h1
          exact hw
    · injection h1 with h1
      subst h1
      exact hw
  split at h2
  · injection h2 with h2
    subst h2
    exact hw1
  · injection h2 with h2
    subst h2
    exact writeInv_shrink hw1
      (fun _ hk => foldl_removeIfPresent_subset _ _ hk)
      (nodup_foldl_removeIfPresent _ _ hw1.2.1)

/-- Counterexample to C3: a source set in which `ARTIST` occurs with two
values (so the key is cached twice) makes the pass assign destination field
`artist` twice — once by the essential group and once by the known-tag group
(with the identical first value). -/
theorem claim3_counterexample :
    Retagger.retag (Retagger.init [("ARTIST", "A"), ("ARTIST", "B")] ["artist"] none false) =
      .ok ⟨⟨[("ARTIST", "A"), ("ARTIST", "B")], []⟩,
           [("artist", "A"), ("artist", "A")], ["artist"], none, false⟩ ∧
    ¬ ([("artist", "A"), ("artist", "A")].map
        (Prod.fst (α := String) (β := String))).Nodup := by
  constructor
  · decide
  · decide

/-- C3 as amended: for a source set whose raw keys are pairwise distinct
after case normalization (no field name occurs with multiple values), no
destination field name is assigned more than once in a full mapping pass;
with duplicated source names a destination field can be re-assigned, though
always with the same first stored value. -/
theorem claim3_amended_nodup_writes (tags : List (String × String)) (vk : List String)
    (count : Option Nat) (md : Bool)
    (hnd : (tags.map (fun e => pyUpper e.1)).Nodup) :
    ∀ r', (Retagger.init tags vk count md).retag = .ok r' →
      (r'.id3.map Prod.fst).Nodup := by
  intro r' h
  have hks : (Taginfo.init tags).flac_keys.Nodup := by
    have hraw : (rawKeys tags).Nodup := by
      apply List.Nodup.sublist _ hnd
      unfold rawKeys
      exact List.Sublist.map _ (List.filter_sublist tags)
    unfold Taginfo.init
    split
    · exact hraw.erase _
    · exact hraw
  have hw0 : WriteInv (Retagger.init tags vk count md).id3
      (Retagger.init tags vk count md).tag.flac_keys := by
    refine ⟨List.nodup_nil, hks, ?_⟩
    intro k hk
    refine ⟨init_keys_upper hk, ?_⟩
    show pyLower k ∉ ([] : List (String × String)).map Prod.fst
    simp
  unfold Retagger.retag at h
  obtain ⟨r1, h1, h⟩ := except_bind_ok h
  obtain ⟨r2, h2, h⟩ := except_bind_ok h
  obtain ⟨r3, h3, h⟩ := except_bind_ok h
  obtain ⟨r4, h4, h⟩ := except_bind_ok h
  obtain ⟨r5, h5, h⟩ := except_bind_ok h
  have hw1 := foldlM_pres essStep_inv essentialKeys _ r1 h1 hw0
  have hw2 := set_tracks_inv h2 hw1
  have hw3 := set_discs_inv h3 hw2
  have hw4 := foldlM_pres dropStep_inv numberingKeys r3 r4 h4 hw3
  have hw5 := foldlM_pres knownStep_inv r4.tag.flac_keys r4 r5 h5 hw4
  have hw6 := foldlM_pres customStep_inv r5.tag.flac_keys r5 r' h hw5
  exact hw6.1

/-- Witness for C3 (amended): on the duplicate-free source set
`{ARTIST: "A", MOOD: "m"}` the full pass succeeds and the destination log
`[artist, mood]` has no repeated key. -/
theorem claim3_witness :
    Retagger.retag (Retagger.init [("ARTIST", "A"), ("MOOD", "m")] ["artist"] none false) =
      .ok ⟨⟨[("ARTIST", "A"), ("MOOD", "m")], []⟩,
           [("artist", "A"), ("mood", "m")], ["artist", "mood"], none, false⟩ ∧
    ((⟨⟨[("ARTIST", "A"), ("MOOD", "m")], []⟩,
        [("artist", "A"), ("mood", "m")], ["artist", "mood"], none, false⟩ :
        Retagger).id3.map Prod.fst).Nodup :=
  ⟨by decide,
   claim3_amended_nodup_writes [("ARTIST", "A"), ("MOOD", "m")] ["artist"] none false
     (by decide) _ (by decide)⟩

end Flac2mp3
